import Mathlib

/-!
Verification of the request-orchestration core of the glance-china
repository: per-service token-bucket rate limiting, the in-memory cache
store, the bounded worker pool, the metrics monitor, and the service
manager's fallback orchestration (`RequestWithFallback`).

Every definition is a shallow embedding of the corresponding Go function.
Go maps are modelled as association lists (assignment replaces the first
binding, reads of a missing key yield the zero value where the Go code
relies on that); `time.Time` values are modelled as natural-number
nanosecond timestamps; Go `int`/`int64` counters that the code keeps
non-negative are modelled as `Int` where subtraction matters and as `Nat`
where only increments occur; durations are modelled as `Nat` nanoseconds.
-/

namespace GlanceChina

/-- Association-list lookup: returns the value of the first binding of
`k`, mirroring a Go map read (`m[k]` together with its `ok` flag). -/
def lookupA {α : Type} (l : List (String × α)) (k : String) : Option α :=
  match l with
  | [] => none
  | p :: rest => if p.1 = k then some p.2 else lookupA rest k

/-- Association-list assignment: replaces the first binding of `k`, or
appends a fresh binding, mirroring a Go map assignment `m[k] = v`. -/
def setA {α : Type} (l : List (String × α)) (k : String) (v : α) :
    List (String × α) :=
  match l with
  | [] => [(k, v)]
  | p :: rest => if p.1 = k then (k, v) :: rest else p :: setA rest k v

/-- Association-list removal of the first binding of `k`, mirroring a Go
map `delete(m, k)` on a map whose keys are unique. -/
def removeA {α : Type} (l : List (String × α)) (k : String) :
    List (String × α) :=
  match l with
  | [] => []
  | p :: rest => if p.1 = k then rest else p :: removeA rest k

theorem lookupA_setA_self {α : Type} (l : List (String × α)) (k : String)
    (v : α) : lookupA (setA l k v) k = some v := by
  induction l with
  | nil => simp [setA, lookupA]
  | cons p rest ih =>
    by_cases h : p.1 = k
    · simp [setA, h, lookupA]
    · simp [setA, h, lookupA, ih]

theorem lookupA_setA_ne {α : Type} (l : List (String × α)) (k k' : String)
    (v : α) (h : k' ≠ k) : lookupA (setA l k v) k' = lookupA l k' := by
  have hk : ¬k = k' := fun h' => h h'.symm
  induction l with
  | nil => simp [setA, lookupA, hk]
  | cons p rest ih =>
    by_cases hp : p.1 = k
    · simp [setA, hp, lookupA, hk, hp ▸ hk]
    · simp only [setA, hp, if_false, lookupA]
      by_cases hp' : p.1 = k'
      · simp [hp']
      · simp [hp', ih]

theorem lookupA_mem {α : Type} {l : List (String × α)} {k : String} {v : α}
    (h : lookupA l k = some v) : (k, v) ∈ l := by
  induction l with
  | nil => simp [lookupA] at h
  | cons p rest ih =>
    by_cases hp : p.1 = k
    · simp only [lookupA, hp, if_true, Option.some.injEq] at h
      cases p
      simp_all
    · simp only [lookupA, hp, if_false] at h
      exact List.mem_cons_of_mem _ (ih h)

end GlanceChina

namespace GlanceChina

/-! ## Rate limiter (`TokenBucketLimiter`, src/unnamed/part_003) -/

/-- Nanoseconds per minute; `time.Duration.Minutes` divided down to an
integer corresponds to flooring the elapsed nanoseconds by this. -/
def nanosPerMinute : Nat := 60000000000

/-- The `tokenBucket` struct of the Go rate limiter.  `lastRefill` is a
nanosecond timestamp. -/
structure tokenBucket where
  tokens : Int
  capacity : Int
  refillRate : Int
  lastRefill : Nat
deriving Repr, DecidableEq

/-- `RateLimitConfig` from the Go source; `services` is the per-service
limit map and `window` the (unused by `consume`) refill window. -/
structure RateLimitConfig where
  defaultLimit : Int
  services : List (String × Int)
  window : Nat
deriving Repr, DecidableEq

/-- The `TokenBucketLimiter` struct: the per-service bucket map plus the
configuration captured at construction. -/
structure TokenBucketLimiter where
  buckets : List (String × tokenBucket)
  config : RateLimitConfig
deriving Repr, DecidableEq

/-- `NewRateLimiter`: zero window defaults to one minute, zero default
limit defaults to 60; starts with no buckets. -/
def NewRateLimiter (config : RateLimitConfig) : TokenBucketLimiter :=
  let config := if config.window = 0 then { config with window := nanosPerMinute } else config
  let config := if config.defaultLimit = 0 then { config with defaultLimit := 60 } else config
  { buckets := [], config := config }

/-- The per-service limit consulted on lazy bucket creation: the
service-specific entry when present, the default otherwise. -/
def resolveLimit (config : RateLimitConfig) (service : String) : Int :=
  match lookupA config.services service with
  | some limit => limit
  | none => config.defaultLimit

/-- The bucket built on first use of a service: full, with capacity and
refill rate both equal to the resolved limit. -/
def newBucket (limit : Int) (now : Nat) : tokenBucket :=
  { tokens := limit, capacity := limit, refillRate := limit, lastRefill := now }

/-- The refill phase of `tokenBucket.consume`: add `floor(elapsedMinutes)
× refillRate` tokens, capped at capacity, but only when the computed
amount is positive (`if tokensToAdd > 0` in the Go source). -/
def tokenBucket.refill (b : tokenBucket) (now : Nat) : tokenBucket :=
  let elapsedMinutes : Nat := (now - b.lastRefill) / nanosPerMinute
  let tokensToAdd : Int := (elapsedMinutes : Int) * b.refillRate
  if 0 < tokensToAdd then
    { b with tokens := min b.capacity (b.tokens + tokensToAdd), lastRefill := now }
  else b

/-- `tokenBucket.consume`: lazily refill, then take one token if any is
available. -/
def tokenBucket.consume (b : tokenBucket) (now : Nat) : Bool × tokenBucket :=
  let b := b.refill now
  if 0 < b.tokens then (true, { b with tokens := b.tokens - 1 }) else (false, b)

/-- `TokenBucketLimiter.Allow`: look the bucket up, lazily creating it
from the resolved limit on first use, then consume one token. -/
def TokenBucketLimiter.Allow (t : TokenBucketLimiter) (service : String)
    (now : Nat) : Bool × TokenBucketLimiter :=
  match lookupA t.buckets service with
  | some bucket =>
    let r := bucket.consume now
    (r.1, { t with buckets := setA t.buckets service r.2 })
  | none =>
    let bucket := newBucket (resolveLimit t.config service) now
    let r := bucket.consume now
    (r.1, { t with buckets := setA t.buckets service r.2 })

/-- `TokenBucketLimiter.Reset`: refill an existing bucket to capacity and
stamp its refill time; a service with no bucket is left untouched. -/
def TokenBucketLimiter.Reset (t : TokenBucketLimiter) (service : String)
    (now : Nat) : TokenBucketLimiter :=
  match lookupA t.buckets service with
  | some bucket =>
    { t with
      buckets := setA t.buckets service
        { bucket with tokens := bucket.capacity, lastRefill := now } }
  | none => t

/-- `n` consecutive `Allow` calls for one service, all at the same
instant, threading the limiter state; returns the list of outcomes. -/
def allowRun (t : TokenBucketLimiter) (service : String) (now : Nat) :
    Nat → List Bool × TokenBucketLimiter
  | 0 => ([], t)
  | n + 1 =>
    let r := t.Allow service now
    let rest := allowRun r.2 service now n
    (r.1 :: rest.1, rest.2)

/-- A sequence of limiter operations, each stamped with the instant at
which it runs. -/
inductive LimiterOp where
  | allowOp (service : String) (now : Nat)
  | resetOp (service : String) (now : Nat)
deriving Repr, DecidableEq

/-- Run a sequence of `Allow`/`Reset` operations against the limiter. -/
def applyLimiterOps (t : TokenBucketLimiter) : List LimiterOp → TokenBucketLimiter
  | [] => t
  | .allowOp s now :: rest => applyLimiterOps (t.Allow s now).2 rest
  | .resetOp s now :: rest => applyLimiterOps (t.Reset s now) rest

/-- The bucket invariant claimed by the spec: `0 ≤ tokens ≤ capacity`. -/
def bucketInv (b : tokenBucket) : Prop :=
  0 ≤ b.tokens ∧ b.tokens ≤ b.capacity

/-- Every bucket held by the limiter satisfies the bucket invariant. -/
def limiterInv (t : TokenBucketLimiter) : Prop :=
  ∀ s b, lookupA t.buckets s = some b → bucketInv b

theorem tokenBucket.refill_self (b : tokenBucket) (now : Nat)
    (h : b.lastRefill = now) : b.refill now = b := by
  simp [tokenBucket.refill, h]

theorem tokenBucket.refill_inv (b : tokenBucket) (now : Nat)
    (h : bucketInv b) : bucketInv (b.refill now) := by
  obtain ⟨h0, hc⟩ := h
  unfold tokenBucket.refill
  set toAdd : Int :=
    ((((now - b.lastRefill) / nanosPerMinute : Nat) : Int)) * b.refillRate with hta
  by_cases hpos : 0 < toAdd
  · simp only [hpos, if_true]
    rcases le_total b.capacity (b.tokens + toAdd) with hm | hm
    · rw [bucketInv]
      simp only [min_eq_left hm]
      constructor <;> omega
    · rw [bucketInv]
      simp only [min_eq_right hm]
      constructor <;> omega
  · simpa only [hpos, if_false] using ⟨h0, hc⟩

theorem tokenBucket.consume_inv (b : tokenBucket) (now : Nat)
    (h : bucketInv b) : bucketInv (b.consume now).2 := by
  have hr := tokenBucket.refill_inv b now h
  unfold tokenBucket.consume
  obtain ⟨h0, hc⟩ := hr
  by_cases ht : 0 < (b.refill now).tokens
  · simp only [ht, if_true]
    unfold bucketInv
    constructor <;> simp <;> omega
  · simp only [ht, if_false]
    exact ⟨h0, hc⟩

theorem limiterInv_setA (t : TokenBucketLimiter) (s : String)
    (b : tokenBucket) (ht : limiterInv t) (hb : bucketInv b) :
    limiterInv { t with buckets := setA t.buckets s b } := by
  intro s' b' h'
  by_cases hs : s' = s
  · subst hs
    rw [lookupA_setA_self] at h'
    cases h'
    exact hb
  · rw [lookupA_setA_ne _ _ _ _ hs] at h'
    exact ht s' b' h'

/-- The per-service limit used on lazy creation is non-negative whenever
the configuration's default and per-service limits are. -/
theorem resolveLimit_nonneg (config : RateLimitConfig) (s : String)
    (hd : 0 ≤ config.defaultLimit) (hs : ∀ p ∈ config.services, 0 ≤ p.2) :
    0 ≤ resolveLimit config s := by
  unfold resolveLimit
  cases hl : lookupA config.services s with
  | none => exact hd
  | some limit => exact hs _ (lookupA_mem hl)

theorem Allow_config (t : TokenBucketLimiter) (s : String) (now : Nat) :
    ((t.Allow s now).2).config = t.config := by
  unfold TokenBucketLimiter.Allow
  cases lookupA t.buckets s <;> rfl

theorem Reset_config (t : TokenBucketLimiter) (s : String) (now : Nat) :
    (t.Reset s now).config = t.config := by
  unfold TokenBucketLimiter.Reset
  cases lookupA t.buckets s <;> rfl

theorem Allow_inv (t : TokenBucketLimiter) (s : String) (now : Nat)
    (hcfg : 0 ≤ t.config.defaultLimit ∧ ∀ p ∈ t.config.services, 0 ≤ p.2)
    (ht : limiterInv t) : limiterInv (t.Allow s now).2 := by
  unfold TokenBucketLimiter.Allow
  cases hl : lookupA t.buckets s with
  | some bucket =>
    exact limiterInv_setA t s _ ht
      (tokenBucket.consume_inv bucket now (ht s bucket hl))
  | none =>
    have hlim : 0 ≤ resolveLimit t.config s :=
      resolveLimit_nonneg t.config s hcfg.1 hcfg.2
    exact limiterInv_setA t s _ ht
      (tokenBucket.consume_inv _ now ⟨hlim, le_refl _⟩)

theorem Reset_inv (t : TokenBucketLimiter) (s : String) (now : Nat)
    (ht : limiterInv t) : limiterInv (t.Reset s now) := by
  unfold TokenBucketLimiter.Reset
  cases hl : lookupA t.buckets s with
  | some bucket =>
    have hb := ht s bucket hl
    exact limiterInv_setA t s _ ht ⟨le_trans hb.1 hb.2, le_refl _⟩
  | none => exact ht

theorem lookupA_Allow_self (t : TokenBucketLimiter) (s : String) (now : Nat)
    (b : tokenBucket) (hl : lookupA t.buckets s = some b) :
    lookupA ((t.Allow s now).2).buckets s = some (b.consume now).2 := by
  unfold TokenBucketLimiter.Allow
  rw [hl]
  exact lookupA_setA_self _ _ _

/-- Iterating `Allow` at a fixed instant against a bucket that holds `tN`
tokens and was last refilled at that same instant admits exactly the
first `tN` calls and denies the rest. -/
theorem allowRun_spec (n : Nat) :
    ∀ (tN : Nat) (t : TokenBucketLimiter) (s : String) (now : Nat) (b : tokenBucket),
      lookupA t.buckets s = some b → b.tokens = (tN : Int) → b.lastRefill = now →
      (allowRun t s now n).1 =
        List.replicate (min tN n) true ++ List.replicate (n - tN) false := by
  induction n with
  | zero => intro tN t s now b _ _ _; simp [allowRun]
  | succ n ih =>
    intro tN t s now b hl htok href
    have hcons : b.consume now =
        if 0 < b.tokens then (true, { b with tokens := b.tokens - 1 })
        else (false, b) := by
      unfold tokenBucket.consume
      rw [tokenBucket.refill_self b now href]
    have hAllow1 : (t.Allow s now).1 = (b.consume now).1 := by
      unfold TokenBucketLimiter.Allow
      rw [hl]
    have hAllow2 := lookupA_Allow_self t s now b hl
    cases tN with
    | zero =>
      have hb0 : ¬ 0 < b.tokens := by rw [htok]; simp
      rw [hcons] at hAllow1 hAllow2
      simp only [hb0, if_false] at hAllow1 hAllow2
      have := ih 0 (t.Allow s now).2 s now b hAllow2 htok href
      simp only [allowRun, this, hAllow1]
      simp [List.replicate_succ]
    | succ m =>
      have hbpos : 0 < b.tokens := by rw [htok]; positivity
      rw [hcons] at hAllow1 hAllow2
      simp only [hbpos, if_true] at hAllow1 hAllow2
      have htok' : ({ b with tokens := b.tokens - 1 } : tokenBucket).tokens = (m : Int) := by
        show b.tokens - 1 = (m : Int)
        rw [htok]
        omega
      have href' : ({ b with tokens := b.tokens - 1 } : tokenBucket).lastRefill = now := href
      have := ih m (t.Allow s now).2 s now _ hAllow2 htok' href'
      simp only [allowRun, this, hAllow1]
      rw [Nat.succ_min_succ, Nat.succ_sub_succ, List.replicate_succ, List.cons_append]

theorem applyLimiterOps_inv (ops : List LimiterOp) :
    ∀ t : TokenBucketLimiter,
      (0 ≤ t.config.defaultLimit ∧ ∀ p ∈ t.config.services, 0 ≤ p.2) →
      limiterInv t → limiterInv (applyLimiterOps t ops) := by
  induction ops with
  | nil => intro t _ ht; exact ht
  | cons op rest ih =>
    intro t hcfg ht
    cases op with
    | allowOp s now =>
      exact ih _ (by rw [Allow_config]; exact hcfg) (Allow_inv t s now hcfg ht)
    | resetOp s now =>
      exact ih _ (by rw [Reset_config]; exact hcfg) (Reset_inv t s now ht)

theorem NewRateLimiter_config (config : RateLimitConfig) :
    (NewRateLimiter config).config.services = config.services ∧
    (NewRateLimiter config).config.defaultLimit =
      (if config.defaultLimit = 0 then 60 else config.defaultLimit) := by
  unfold NewRateLimiter
  by_cases h1 : config.window = 0 <;> by_cases h2 : config.defaultLimit = 0 <;>
    simp [h1, h2]

/-- C5: for a token bucket created with capacity `C ≥ 1`, with no refill
interval elapsed between calls, exactly `C` consecutive
`TokenBucketLimiter.Allow` calls for that service return `true` and the
`(C+1)`-th returns `false`; the refill phase adds
`floor(elapsedMinutes) × refillRate` tokens, capped at capacity. -/
theorem tokenBucketLimiter_admits_exactly_capacity :
    (∀ (t : TokenBucketLimiter) (s : String) (now : Nat) (C : Nat),
        1 ≤ C → lookupA t.buckets s = none →
        resolveLimit t.config s = (C : Int) →
        (allowRun t s now (C + 1)).1 = List.replicate C true ++ [false]) ∧
    (∀ (b : tokenBucket) (now : Nat),
        0 < (((now - b.lastRefill) / nanosPerMinute : Nat) : Int) * b.refillRate →
        (b.refill now).tokens =
          min b.capacity
            (b.tokens + (((now - b.lastRefill) / nanosPerMinute : Nat) : Int) * b.refillRate) ∧
        (b.refill now).lastRefill = now) := by
  constructor
  · intro t s now C hC hnone hres
    obtain ⟨m, rfl⟩ : ∃ m, C = m + 1 := ⟨C - 1, by omega⟩
    have hpos : (0 : Int) < resolveLimit t.config s := by
      rw [hres]; positivity
    have hcons : (newBucket (resolveLimit t.config s) now).consume now =
        (true, { newBucket (resolveLimit t.config s) now with
                  tokens := resolveLimit t.config s - 1 }) := by
      unfold tokenBucket.consume
      rw [tokenBucket.refill_self _ now rfl]
      simp only [newBucket, hpos, if_true]
    have hA1 : (t.Allow s now).1 = true := by
      unfold TokenBucketLimiter.Allow
      rw [hnone]
      simp [hcons]
    have hA2 : lookupA ((t.Allow s now).2).buckets s =
        some { newBucket (resolveLimit t.config s) now with
                tokens := resolveLimit t.config s - 1 } := by
      unfold TokenBucketLimiter.Allow
      rw [hnone]
      simp [hcons, lookupA_setA_self]
    have htok' : ({ newBucket (resolveLimit t.config s) now with
        tokens := resolveLimit t.config s - 1 } : tokenBucket).tokens = (m : Int) := by
      show resolveLimit t.config s - 1 = (m : Int)
      rw [hres]
      push_cast
      ring
    have hrest := allowRun_spec (m + 1) m (t.Allow s now).2 s now _ hA2 htok' rfl
    have hstep : (allowRun t s now (m + 1 + 1)).1 =
        (t.Allow s now).1 :: (allowRun (t.Allow s now).2 s now (m + 1)).1 := rfl
    have h1 : min m (m + 1) = m := min_eq_left (Nat.le_succ m)
    have h2 : m + 1 - m = 1 := by omega
    rw [hstep, hA1, hrest, h1, h2]
    simp [List.replicate_succ]
  · intro b now h
    have href : b.refill now = { b with
        tokens := min b.capacity
          (b.tokens + (((now - b.lastRefill) / nanosPerMinute : Nat) : Int) * b.refillRate),
        lastRefill := now } := by
      show (if 0 < (((now - b.lastRefill) / nanosPerMinute : Nat) : Int) * b.refillRate then
          { b with
            tokens := min b.capacity
              (b.tokens + (((now - b.lastRefill) / nanosPerMinute : Nat) : Int) * b.refillRate),
            lastRefill := now }
        else b) = _
      rw [if_pos h]
    rw [href]
    exact ⟨rfl, rfl⟩

/-- Witness for `tokenBucketLimiter_admits_exactly_capacity` at concrete
inputs: a fresh limiter with default limit 2, and a concrete refill. -/
theorem tokenBucketLimiter_admits_exactly_capacity_witness :
    (allowRun (NewRateLimiter ⟨2, [], 0⟩) "svc" 0 3).1 =
      List.replicate 2 true ++ [false] ∧
    ((⟨0, 5, 3, 0⟩ : tokenBucket).refill nanosPerMinute).tokens =
      min (5 : Int)
        (0 + (((nanosPerMinute - 0) / nanosPerMinute : Nat) : Int) * 3) ∧
    ((⟨0, 5, 3, 0⟩ : tokenBucket).refill nanosPerMinute).lastRefill = nanosPerMinute :=
  ⟨tokenBucketLimiter_admits_exactly_capacity.1 _ "svc" 0 2 (by decide)
      (by rfl) (by rfl),
   (tokenBucketLimiter_admits_exactly_capacity.2 (⟨0, 5, 3, 0⟩ : tokenBucket)
      nanosPerMinute (by decide)).1,
   (tokenBucketLimiter_admits_exactly_capacity.2 (⟨0, 5, 3, 0⟩ : tokenBucket)
      nanosPerMinute (by decide)).2⟩

/-- C6: with non-negative configured limits, `0 ≤ tokens ≤ capacity`
holds for every bucket the limiter holds after any sequence of
`Allow`/`Reset` operations starting from a fresh limiter. -/
theorem tokenBucket_invariant_sequences (config : RateLimitConfig)
    (hd : 0 ≤ config.defaultLimit)
    (hs : ∀ p ∈ config.services, 0 ≤ p.2)
    (ops : List LimiterOp) (s : String) (b : tokenBucket)
    (hb : lookupA (applyLimiterOps (NewRateLimiter config) ops).buckets s = some b) :
    0 ≤ b.tokens ∧ b.tokens ≤ b.capacity := by
  have hcfg : 0 ≤ (NewRateLimiter config).config.defaultLimit ∧
      ∀ p ∈ (NewRateLimiter config).config.services, 0 ≤ p.2 := by
    obtain ⟨h1, h2⟩ := NewRateLimiter_config config
    rw [h1, h2]
    constructor
    · split <;> omega
    · exact hs
  have h0 : limiterInv (NewRateLimiter config) := by
    intro s' b' h'
    have : lookupA (NewRateLimiter config).buckets s' = none := rfl
    rw [this] at h'
    cases h'
  exact applyLimiterOps_inv ops (NewRateLimiter config) hcfg h0 s b hb

/-- Witness for `tokenBucket_invariant_sequences`: one `Allow` against a
service with configured limit 3 leaves the bucket at 2 of 3 tokens. -/
theorem tokenBucket_invariant_sequences_witness :
    0 ≤ (⟨2, 3, 3, 0⟩ : tokenBucket).tokens ∧
    (⟨2, 3, 3, 0⟩ : tokenBucket).tokens ≤ (⟨2, 3, 3, 0⟩ : tokenBucket).capacity :=
  tokenBucket_invariant_sequences ⟨2, [("a", 3)], 0⟩ (by decide)
    (by decide) [.allowOp "a" 0] "a" ⟨2, 3, 3, 0⟩ (by decide)

/-- C10: `Reset` on a service with no bucket leaves the limiter entirely
unchanged, and a subsequent `Allow` behaves exactly as it would have
without the `Reset`: it lazily creates a full bucket from the resolved
limit and consumes from it. -/
theorem reset_absent_bucket_frame (t : TokenBucketLimiter) (s : String)
    (now now' : Nat) (h : lookupA t.buckets s = none) :
    t.Reset s now = t ∧
    (t.Reset s now).Allow s now' = t.Allow s now' ∧
    lookupA ((t.Allow s now').2).buckets s =
      some ((newBucket (resolveLimit t.config s) now').consume now').2 := by
  have h1 : t.Reset s now = t := by
    unfold TokenBucketLimiter.Reset
    rw [h]
  refine ⟨h1, by rw [h1], ?_⟩
  unfold TokenBucketLimiter.Allow
  rw [h]
  simp [lookupA_setA_self]

/-- Witness for `reset_absent_bucket_frame` on a fresh limiter. -/
theorem reset_absent_bucket_frame_witness :
    (NewRateLimiter ⟨1, [], 0⟩).Reset "a" 5 = NewRateLimiter ⟨1, [], 0⟩ ∧
    ((NewRateLimiter ⟨1, [], 0⟩).Reset "a" 5).Allow "a" 7 =
      (NewRateLimiter ⟨1, [], 0⟩).Allow "a" 7 ∧
    lookupA (((NewRateLimiter ⟨1, [], 0⟩).Allow "a" 7).2).buckets "a" =
      some ((newBucket (resolveLimit (NewRateLimiter ⟨1, [], 0⟩).config "a") 7).consume 7).2 :=
  reset_absent_bucket_frame _ "a" 5 7 rfl

end GlanceChina

namespace GlanceChina

/-! ## Cache store (`MemoryCache`, src/unnamed/part_004) -/

/-- The `cacheItem` struct: serialized value bytes plus the expiry
timestamp (nanoseconds). -/
structure cacheItem where
  value : List Nat
  expiredAt : Nat
deriving Repr, DecidableEq

/-- The `MemoryCache` struct.  `maxSize`/`currentSize` are the Go `int64`
byte accounting fields. -/
structure MemoryCache where
  data : List (String × cacheItem)
  maxSize : Int
  currentSize : Int
deriving Repr, DecidableEq

/-- `NewMemoryCache`: empty map, capacity taken from `config.MaxSize`. -/
def NewMemoryCache (maxSize : Int) : MemoryCache :=
  { data := [], maxSize := maxSize, currentSize := 0 }

/-- `MemoryCache.Delete`: remove the entry (if present) and subtract its
accounted size. -/
def MemoryCache.Delete (m : MemoryCache) (key : String) : MemoryCache :=
  match lookupA m.data key with
  | some item =>
    { m with data := removeA m.data key,
             currentSize := m.currentSize - item.value.length }
  | none => m

/-- `MemoryCache.Get`: a missing key reports the `cache miss` error; a
present but expired key (strictly past its expiry, `time.Now().After`) is
deleted and reports the `cache expired` error; otherwise the stored bytes
are returned (`json.Unmarshal` into the destination). -/
def MemoryCache.Get (m : MemoryCache) (now : Nat) (key : String) :
    Except String (List Nat) × MemoryCache :=
  match lookupA m.data key with
  | none => (.error ("cache miss: " ++ key), m)
  | some item =>
    if item.expiredAt < now then (.error ("cache expired: " ++ key), m.Delete key)
    else (.ok item.value, m)

/-- The scan inside `evictLRU`, including Go's empty-string sentinel:
`oldestKey` starts as `""` and the pair is (re-)armed whenever
`oldestKey == ""` or a strictly earlier expiry is seen (map iteration
modelled in list order).  Selecting an entry whose key is itself `""`
re-arms the scan, so the next entry replaces it unconditionally. -/
def oldestScan (acc : String × Nat) :
    List (String × cacheItem) → String × Nat
  | [] => acc
  | p :: rest =>
    oldestScan
      (if acc.1 = "" ∨ p.2.expiredAt < acc.2 then (p.1, p.2.expiredAt) else acc)
      rest

/-- `MemoryCache.evictLRU`: run the scan and, only when the selected key
is non-empty (`if oldestKey != ""`), delete that entry and subtract the
accounted size of `m.data[oldestKey]` (a missing key reads as the zero
value, as a Go map read does).  When the selected key is empty — the map
was empty, or the scan last armed on an entry keyed `""` — nothing is
evicted. -/
def MemoryCache.evictLRU (m : MemoryCache) : MemoryCache :=
  if (oldestScan ("", 0) m.data).1 = "" then m
  else
    { m with
      data := removeA m.data (oldestScan ("", 0) m.data).1,
      currentSize := m.currentSize -
        ((lookupA m.data (oldestScan ("", 0) m.data).1).getD ⟨[], 0⟩).value.length }

/-- The final two statements of the Go `Set`: store the serialized value
with expiry `now + ttl` and add its size to the accounting. -/
def MemoryCache.insertEntry (m : MemoryCache) (now : Nat) (key : String)
    (data : List Nat) (ttl : Nat) : MemoryCache :=
  { m with data := setA m.data key ⟨data, now + ttl⟩,
           currentSize := m.currentSize + data.length }

/-- `MemoryCache.Set`: when the configured capacity is positive and would
be exceeded by this insert, evict once; then store the serialized value
with expiry `now + ttl` and add its size. -/
def MemoryCache.Set (m : MemoryCache) (now : Nat) (key : String)
    (data : List Nat) (ttl : Nat) : MemoryCache :=
  let m' := if 0 < m.maxSize ∧ m.maxSize < m.currentSize + data.length
    then m.evictLRU else m
  m'.insertEntry now key data ttl

/-- One recorded `Set` call. -/
structure CacheSetOp where
  now : Nat
  key : String
  value : List Nat
  ttl : Nat
deriving Repr, DecidableEq

/-- Run a sequence of `Set` calls against the cache. -/
def applySets (m : MemoryCache) : List CacheSetOp → MemoryCache
  | [] => m
  | op :: rest => applySets (m.Set op.now op.key op.value op.ttl) rest

theorem lookupA_eq_none_of_not_mem {α : Type} {l : List (String × α)}
    {k : String} (h : k ∉ l.map Prod.fst) : lookupA l k = none := by
  induction l with
  | nil => rfl
  | cons p rest ih =>
    simp only [List.map_cons, List.mem_cons] at h
    push_neg at h
    simp only [lookupA, if_neg (show ¬p.1 = k from fun hpk => h.1 hpk.symm), ih h.2]

theorem removeA_subset {α : Type} {l : List (String × α)} {k : String}
    {p : String × α} (h : p ∈ removeA l k) : p ∈ l := by
  induction l with
  | nil => simp [removeA] at h
  | cons q rest ih =>
    by_cases hq : q.1 = k
    · simp only [removeA, hq, if_true] at h
      exact List.mem_cons_of_mem _ h
    · simp only [removeA, hq, if_false, List.mem_cons] at h
      rcases h with h | h
      · exact h ▸ List.mem_cons_self _ _
      · exact List.mem_cons_of_mem _ (ih h)

theorem removeA_keys_subset {α : Type} (l : List (String × α)) (k : String) :
    (removeA l k).map Prod.fst ⊆ l.map Prod.fst := by
  intro x hx
  simp only [List.mem_map] at hx ⊢
  obtain ⟨p, hp, rfl⟩ := hx
  exact ⟨p, removeA_subset hp, rfl⟩

theorem removeA_length_of_mem {α : Type} {l : List (String × α)} {k : String}
    (h : k ∈ l.map Prod.fst) : (removeA l k).length + 1 = l.length := by
  induction l with
  | nil => simp at h
  | cons p rest ih =>
    by_cases hp : p.1 = k
    · simp [removeA, hp]
    · simp only [List.map_cons, List.mem_cons] at h
      rcases h with h | h
      · exact absurd h.symm hp
      · simp only [removeA, hp, if_false, List.length_cons]
        rw [← ih h]

theorem lookupA_removeA_self {α : Type} {l : List (String × α)} {k : String}
    (hnd : (l.map Prod.fst).Nodup) : lookupA (removeA l k) k = none := by
  induction l with
  | nil => rfl
  | cons p rest ih =>
    simp only [List.map_cons, List.nodup_cons] at hnd
    by_cases hp : p.1 = k
    · simp only [removeA, hp, if_true]
      exact lookupA_eq_none_of_not_mem (hp ▸ hnd.1)
    · simp only [removeA, hp, if_false, lookupA, if_neg hp]
      exact ih hnd.2

theorem setA_mem {α : Type} {l : List (String × α)} {k : String} {v : α}
    {p : String × α} (h : p ∈ setA l k v) : p = (k, v) ∨ p ∈ l := by
  induction l with
  | nil => simp [setA] at h; exact Or.inl h
  | cons q rest ih =>
    by_cases hq : q.1 = k
    · simp only [setA, hq, if_true, List.mem_cons] at h
      rcases h with h | h
      · exact Or.inl h
      · exact Or.inr (List.mem_cons_of_mem _ h)
    · simp only [setA, hq, if_false, List.mem_cons] at h
      rcases h with h | h
      · exact Or.inr (h ▸ List.mem_cons_self _ _)
      · rcases ih h with h' | h'
        · exact Or.inl h'
        · exact Or.inr (List.mem_cons_of_mem _ h')

theorem setA_length_fresh {α : Type} {l : List (String × α)} {k : String}
    (v : α) (h : k ∉ l.map Prod.fst) : (setA l k v).length = l.length + 1 := by
  induction l with
  | nil => rfl
  | cons p rest ih =>
    simp only [List.map_cons, List.mem_cons] at h
    push_neg at h
    simp only [setA, if_neg (show ¬p.1 = k from fun hpk => h.1 hpk.symm), List.length_cons, ih h.2]

theorem setA_keys_subset {α : Type} (l : List (String × α)) (k : String)
    (v : α) : (setA l k v).map Prod.fst ⊆ k :: l.map Prod.fst := by
  intro x hx
  simp only [List.mem_map] at hx
  obtain ⟨p, hp, rfl⟩ := hx
  rcases setA_mem hp with h | h
  · subst h; exact List.mem_cons_self _ _
  · exact List.mem_cons_of_mem _ (List.mem_map_of_mem Prod.fst h)

theorem oldestScan_armed (l : List (String × cacheItem)) :
    ∀ acc : String × Nat, (∀ p ∈ l, p.1 ≠ "") → acc.1 ≠ "" →
      (oldestScan acc l).1 ≠ "" ∧
      (oldestScan acc l = acc ∨
        ∃ p ∈ l, (oldestScan acc l).1 = p.1 ∧
          (oldestScan acc l).2 = p.2.expiredAt) ∧
      (oldestScan acc l).2 ≤ acc.2 ∧
      ∀ p ∈ l, (oldestScan acc l).2 ≤ p.2.expiredAt := by
  induction l with
  | nil =>
    intro acc _ hacc
    exact ⟨hacc, Or.inl rfl, le_refl _, by simp⟩
  | cons p rest ih =>
    intro acc hne hacc
    have hne' : ∀ q ∈ rest, q.1 ≠ "" :=
      fun q hq => hne q (List.mem_cons_of_mem _ hq)
    have hstep : oldestScan acc (p :: rest) =
        oldestScan
          (if acc.1 = "" ∨ p.2.expiredAt < acc.2 then (p.1, p.2.expiredAt) else acc)
          rest := rfl
    by_cases hcond : acc.1 = "" ∨ p.2.expiredAt < acc.2
    · have hlt : p.2.expiredAt < acc.2 := by
        rcases hcond with h | h
        · exact absurd h hacc
        · exact h
      rw [hstep, if_pos hcond]
      obtain ⟨h1, h2, h3, h4⟩ :=
        ih (p.1, p.2.expiredAt) hne' (hne p (List.mem_cons_self _ _))
      refine ⟨h1, ?_, le_trans h3 (le_of_lt hlt), ?_⟩
      · rcases h2 with h2 | ⟨q, hq, hq1, hq2⟩
        · exact Or.inr ⟨p, List.mem_cons_self _ _, by rw [h2], by rw [h2]⟩
        · exact Or.inr ⟨q, List.mem_cons_of_mem _ hq, hq1, hq2⟩
      · intro q hq
        rcases List.mem_cons.1 hq with h' | h'
        · exact h' ▸ h3
        · exact h4 q h'
    · push_neg at hcond
      rw [hstep, if_neg (by push_neg; exact hcond)]
      obtain ⟨h1, h2, h3, h4⟩ := ih acc hne' hacc
      refine ⟨h1, ?_, h3, ?_⟩
      · rcases h2 with h2 | ⟨q, hq, hq1, hq2⟩
        · exact Or.inl h2
        · exact Or.inr ⟨q, List.mem_cons_of_mem _ hq, hq1, hq2⟩
      · intro q hq
        rcases List.mem_cons.1 hq with h' | h'
        · exact h' ▸ le_trans h3 hcond.2
        · exact h4 q h'

/-- For a non-empty map none of whose keys is the empty string, the
sentinel never re-arms: the scan selects a non-empty key of a stored
entry whose expiry is minimal. -/
theorem oldestScan_spec (l : List (String × cacheItem)) (hl : l ≠ [])
    (hne : ∀ p ∈ l, p.1 ≠ "") :
    (oldestScan ("", 0) l).1 ≠ "" ∧
    (∃ p ∈ l, (oldestScan ("", 0) l).1 = p.1 ∧
      (oldestScan ("", 0) l).2 = p.2.expiredAt) ∧
    ∀ p ∈ l, (oldestScan ("", 0) l).2 ≤ p.2.expiredAt := by
  cases l with
  | nil => exact absurd rfl hl
  | cons q rest =>
    have hstep : oldestScan ("", 0) (q :: rest) =
        oldestScan (q.1, q.2.expiredAt) rest := by
      show oldestScan (if ("" : String) = "" ∨ q.2.expiredAt < 0
          then (q.1, q.2.expiredAt) else ("", 0)) rest = _
      rw [if_pos (Or.inl rfl)]
    obtain ⟨h1, h2, h3, h4⟩ := oldestScan_armed rest (q.1, q.2.expiredAt)
      (fun p hp => hne p (List.mem_cons_of_mem _ hp))
      (hne q (List.mem_cons_self _ _))
    rw [hstep]
    refine ⟨h1, ?_, ?_⟩
    · rcases h2 with h2 | ⟨p, hp, hp1, hp2⟩
      · exact ⟨q, List.mem_cons_self _ _, by rw [h2], by rw [h2]⟩
      · exact ⟨p, List.mem_cons_of_mem _ hp, hp1, hp2⟩
    · intro p hp
      rcases List.mem_cons.1 hp with h' | h'
      · exact h' ▸ h3
      · exact h4 p h'

theorem lookupA_isSome_of_mem_keys {α : Type} {l : List (String × α)}
    {k : String} (h : k ∈ l.map Prod.fst) : ∃ v, lookupA l k = some v := by
  induction l with
  | nil => simp at h
  | cons p rest ih =>
    by_cases hp : p.1 = k
    · exact ⟨p.2, by simp [lookupA, hp]⟩
    · simp only [List.map_cons, List.mem_cons] at h
      rcases h with h | h
      · exact absurd h.symm hp
      · obtain ⟨v, hv⟩ := ih h
        exact ⟨v, by simp [lookupA, hp, hv]⟩

theorem lookupA_eq_of_mem_nodup {α : Type} {l : List (String × α)}
    {k : String} {v : α} (hnd : (l.map Prod.fst).Nodup) (h : (k, v) ∈ l) :
    lookupA l k = some v := by
  induction l with
  | nil => simp at h
  | cons p rest ih =>
    simp only [List.map_cons, List.nodup_cons] at hnd
    rcases List.mem_cons.1 h with h' | h'
    · rw [← h']
      simp [lookupA]
    · by_cases hp : p.1 = k
      · exact absurd (hp ▸ List.mem_map_of_mem Prod.fst h') hnd.1
      · simp only [lookupA, hp, if_false]
        exact ih hnd.2 h'

end GlanceChina

namespace GlanceChina

/-! ## Cache invariants and claim theorems for the cache store -/

/-- Unfolding of `Set` when the capacity check does not trigger. -/
theorem MemoryCache.Set_eq_of_not_over (m : MemoryCache) (now : Nat)
    (key : String) (v : List Nat) (ttl : Nat)
    (h : ¬(0 < m.maxSize ∧ m.maxSize < m.currentSize + v.length)) :
    m.Set now key v ttl = m.insertEntry now key v ttl := by
  show (if 0 < m.maxSize ∧ m.maxSize < m.currentSize + v.length
      then m.evictLRU else m).insertEntry now key v ttl = _
  rw [if_neg h]

/-- Unfolding of `Set` when the capacity check triggers. -/
theorem MemoryCache.Set_eq_of_over (m : MemoryCache) (now : Nat)
    (key : String) (v : List Nat) (ttl : Nat)
    (h : 0 < m.maxSize ∧ m.maxSize < m.currentSize + v.length) :
    m.Set now key v ttl = m.evictLRU.insertEntry now key v ttl := by
  show (if 0 < m.maxSize ∧ m.maxSize < m.currentSize + v.length
      then m.evictLRU else m).insertEntry now key v ttl = _
  rw [if_pos h]

theorem MemoryCache.evictLRU_of_sel_empty (m : MemoryCache)
    (h : (oldestScan ("", 0) m.data).1 = "") : m.evictLRU = m := by
  unfold MemoryCache.evictLRU
  rw [if_pos h]

theorem MemoryCache.evictLRU_of_sel (m : MemoryCache)
    (h : ¬(oldestScan ("", 0) m.data).1 = "") :
    m.evictLRU =
      { m with
        data := removeA m.data (oldestScan ("", 0) m.data).1,
        currentSize := m.currentSize -
          ((lookupA m.data (oldestScan ("", 0) m.data).1).getD
            ⟨[], 0⟩).value.length } := by
  unfold MemoryCache.evictLRU
  rw [if_neg h]

theorem MemoryCache.evictLRU_maxSize (m : MemoryCache) :
    m.evictLRU.maxSize = m.maxSize := by
  by_cases h : (oldestScan ("", 0) m.data).1 = ""
  · rw [m.evictLRU_of_sel_empty h]
  · rw [m.evictLRU_of_sel h]

theorem MemoryCache.evictLRU_keys_subset (m : MemoryCache) :
    m.evictLRU.data.map Prod.fst ⊆ m.data.map Prod.fst := by
  by_cases h : (oldestScan ("", 0) m.data).1 = ""
  · rw [m.evictLRU_of_sel_empty h]
    exact fun x hx => hx
  · rw [m.evictLRU_of_sel h]
    exact removeA_keys_subset m.data _

theorem MemoryCache.Set_maxSize (m : MemoryCache) (now : Nat) (key : String)
    (v : List Nat) (ttl : Nat) : (m.Set now key v ttl).maxSize = m.maxSize := by
  by_cases h : 0 < m.maxSize ∧ m.maxSize < m.currentSize + v.length
  · rw [MemoryCache.Set_eq_of_over m now key v ttl h]
    exact m.evictLRU_maxSize
  · rw [MemoryCache.Set_eq_of_not_over m now key v ttl h]
    rfl

theorem MemoryCache.Set_keys_subset (m : MemoryCache) (now : Nat)
    (key : String) (v : List Nat) (ttl : Nat) :
    (m.Set now key v ttl).data.map Prod.fst ⊆ key :: m.data.map Prod.fst := by
  intro x hx
  by_cases h : 0 < m.maxSize ∧ m.maxSize < m.currentSize + v.length
  · rw [MemoryCache.Set_eq_of_over m now key v ttl h] at hx
    rcases List.mem_cons.1 (setA_keys_subset _ _ _ hx) with h' | h'
    · exact h' ▸ List.mem_cons_self _ _
    · exact List.mem_cons_of_mem _ (m.evictLRU_keys_subset h')
  · rw [MemoryCache.Set_eq_of_not_over m now key v ttl h] at hx
    exact setA_keys_subset _ _ _ hx

/-- The inductive invariant for the equal-size eviction bound: positive
capacity, no stored key is the empty string (so the sentinel in
`evictLRU`'s scan never re-arms), all stored values of size `L`,
accurate size accounting, and total size at most `max maxSize L`. -/
def cacheInv (L : Nat) (m : MemoryCache) : Prop :=
  0 < m.maxSize ∧
  (∀ p ∈ m.data, p.1 ≠ "") ∧
  (∀ p ∈ m.data, p.2.value.length = L) ∧
  m.currentSize = (L : Int) * m.data.length ∧
  m.currentSize ≤ max m.maxSize (L : Int)

theorem Set_cacheInv (L : Nat) (m : MemoryCache) (now : Nat) (key : String)
    (v : List Nat) (ttl : Nat) (hInv : cacheInv L m) (hkey : key ≠ "")
    (hfresh : key ∉ m.data.map Prod.fst) (hlen : v.length = L) :
    cacheInv L (m.Set now key v ttl) := by
  obtain ⟨hM, hnoempty, hall, hsize, hbound⟩ := hInv
  by_cases hcond : 0 < m.maxSize ∧ m.maxSize < m.currentSize + v.length
  · rw [MemoryCache.Set_eq_of_over m now key v ttl hcond]
    by_cases hdata : m.data = []
    · -- empty cache: the scan stays at the sentinel, eviction is a no-op
      have hsel : (oldestScan ("", 0) m.data).1 = "" := by
        rw [hdata]
        rfl
      rw [m.evictLRU_of_sel_empty hsel]
      have hcs : m.currentSize = 0 := by
        rw [hsize, hdata]
        simp
      refine ⟨hM, ?_, ?_, ?_, ?_⟩
      · intro p hp
        rcases setA_mem hp with h' | h'
        · rw [h']; exact hkey
        · exact hnoempty p h'
      · intro p hp
        rcases setA_mem hp with h' | h'
        · rw [h']; exact hlen
        · exact hall p h'
      · show m.currentSize + (v.length : Int) =
          (L : Int) * (setA m.data key ⟨v, now + ttl⟩).length
        rw [hcs, hdata]
        simp [setA, hlen]
      · show m.currentSize + (v.length : Int) ≤ max m.maxSize (L : Int)
        rw [hcs, hlen]
        simp
    · -- non-empty cache with no empty keys: exactly one entry is evicted
      obtain ⟨hsel, ⟨p0, hp0, hk1, hk2⟩, hmin⟩ := oldestScan_spec m.data hdata hnoempty
      have hkeymem : (oldestScan ("", 0) m.data).1 ∈ m.data.map Prod.fst := by
        rw [hk1]
        exact List.mem_map_of_mem Prod.fst hp0
      obtain ⟨it, hit⟩ := lookupA_isSome_of_mem_keys hkeymem
      have hitlen : it.value.length = L := hall _ (lookupA_mem hit)
      have hrlen :
          (removeA m.data (oldestScan ("", 0) m.data).1).length + 1 =
            m.data.length :=
        removeA_length_of_mem hkeymem
      rw [m.evictLRU_of_sel hsel, hit]
      have hfresh' :
          key ∉ (removeA m.data (oldestScan ("", 0) m.data).1).map Prod.fst :=
        fun h' => hfresh (removeA_keys_subset m.data _ h')
      refine ⟨hM, ?_, ?_, ?_, ?_⟩
      · intro p hp
        rcases setA_mem hp with h' | h'
        · rw [h']; exact hkey
        · exact hnoempty p (removeA_subset h')
      · intro p hp
        rcases setA_mem hp with h' | h'
        · rw [h']; exact hlen
        · exact hall p (removeA_subset h')
      · show m.currentSize - (((some it).getD ⟨[], 0⟩).value.length : Int) +
            (v.length : Int) =
          (L : Int) * (setA (removeA m.data (oldestScan ("", 0) m.data).1)
            key ⟨v, now + ttl⟩).length
        simp only [Option.getD_some]
        rw [setA_length_fresh _ hfresh', hitlen, hlen, hsize, ← hrlen]
        push_cast
        ring
      · show m.currentSize - (((some it).getD ⟨[], 0⟩).value.length : Int) +
            (v.length : Int) ≤ max m.maxSize (L : Int)
        simp only [Option.getD_some]
        rw [hitlen, hlen]
        omega
  · rw [MemoryCache.Set_eq_of_not_over m now key v ttl hcond]
    have hle : m.currentSize + (v.length : Int) ≤ m.maxSize := by
      push_neg at hcond
      exact hcond hM
    refine ⟨hM, ?_, ?_, ?_, ?_⟩
    · intro p hp
      rcases setA_mem hp with h' | h'
      · rw [h']; exact hkey
      · exact hnoempty p h'
    · intro p hp
      rcases setA_mem hp with h' | h'
      · rw [h']; exact hlen
      · exact hall p h'
    · show m.currentSize + (v.length : Int) =
        (L : Int) * (setA m.data key ⟨v, now + ttl⟩).length
      rw [setA_length_fresh _ hfresh, hlen, hsize]
      push_cast
      ring
    · show m.currentSize + (v.length : Int) ≤ max m.maxSize (L : Int)
      exact le_trans hle (le_max_left _ _)

theorem applySets_cacheInv (L : Nat) :
    ∀ (ops : List CacheSetOp) (m : MemoryCache),
      cacheInv L m →
      (∀ op ∈ ops, op.value.length = L) →
      (∀ op ∈ ops, op.key ≠ "") →
      (ops.map CacheSetOp.key).Nodup →
      (∀ op ∈ ops, op.key ∉ m.data.map Prod.fst) →
      cacheInv L (applySets m ops) ∧ (applySets m ops).maxSize = m.maxSize := by
  intro ops
  induction ops with
  | nil => exact fun m hInv _ _ _ _ => ⟨hInv, rfl⟩
  | cons op rest ih =>
    intro m hInv hlen hkeys hnd hfresh
    have hInv' := Set_cacheInv L m op.now op.key op.value op.ttl hInv
      (hkeys op (List.mem_cons_self _ _))
      (hfresh op (List.mem_cons_self _ _)) (hlen op (List.mem_cons_self _ _))
    simp only [List.map_cons, List.nodup_cons] at hnd
    have hfresh' : ∀ o ∈ rest,
        o.key ∉ (m.Set op.now op.key op.value op.ttl).data.map Prod.fst := by
      intro o ho hmem
      rcases List.mem_cons.1
          (MemoryCache.Set_keys_subset m op.now op.key op.value op.ttl hmem) with h' | h'
      · exact hnd.1 (h' ▸ List.mem_map_of_mem CacheSetOp.key ho)
      · exact hfresh o (List.mem_cons_of_mem _ ho) h'
    obtain ⟨h1, h2⟩ := ih _ hInv'
      (fun o ho => hlen o (List.mem_cons_of_mem _ ho))
      (fun o ho => hkeys o (List.mem_cons_of_mem _ ho)) hnd.2 hfresh'
    exact ⟨h1, h2.trans (MemoryCache.Set_maxSize m op.now op.key op.value op.ttl)⟩

end GlanceChina

namespace GlanceChina

/-- C3 counterexample: `Get` after expiry does remove the entry, but its
outcome is the distinct `cache expired` error, not the `cache miss` error
produced for a key that was never stored, so the two behaviours are
distinguishable by the caller. -/
theorem memoryCache_get_expired_differs_from_miss :
    ((((NewMemoryCache 0).Set 0 "k" [7] 100).Get 150 "k").1 =
      Except.error ("cache expired: k")) ∧
    (((NewMemoryCache 0).Get 150 "k").1 = Except.error ("cache miss: k")) ∧
    ("cache expired: k" ≠ "cache miss: k") ∧
    lookupA ((((NewMemoryCache 0).Set 0 "k" [7] 100).Get 150 "k").2).data "k" =
      none := by
  refine ⟨rfl, rfl, by decide, rfl⟩

/-- C3 amended: a `Get` strictly past the entry's expiry removes the
entry and returns an error (the stale value is never returned), but that
error is `cache expired`, distinguishable from the `cache miss` error a
never-stored key produces. -/
theorem memoryCache_get_expired_removes_and_errors (m : MemoryCache)
    (now : Nat) (key : String) (item : cacheItem)
    (hnd : (m.data.map Prod.fst).Nodup)
    (hl : lookupA m.data key = some item) (hexp : item.expiredAt < now) :
    (m.Get now key).1 = .error ("cache expired: " ++ key) ∧
    lookupA ((m.Get now key).2).data key = none := by
  unfold MemoryCache.Get
  simp only [hl]
  rw [if_pos hexp]
  refine ⟨rfl, ?_⟩
  unfold MemoryCache.Delete
  simp only [hl]
  exact lookupA_removeA_self hnd

/-- Witness for `memoryCache_get_expired_removes_and_errors` at a
concrete expired entry. -/
theorem memoryCache_get_expired_removes_and_errors_witness :
    ((((NewMemoryCache 0).Set 5 "k" [7] 100).Get 300 "k").1 =
      .error ("cache expired: " ++ "k")) ∧
    lookupA ((((NewMemoryCache 0).Set 5 "k" [7] 100).Get 300 "k").2).data "k" =
      none :=
  memoryCache_get_expired_removes_and_errors _ 300 "k" ⟨[7], 105⟩
    (by decide) (by decide) (by decide)

/-- C4 counterexample: with capacity 2, four `Set`s on distinct keys with
sizes 1, 1, 5, 5 leave a total accounted size of 10, strictly above
capacity plus the last pending insert (2 + 5 = 7), because each
over-capacity `Set` evicts only one entry. -/
theorem memoryCache_eviction_bound_counterexample :
    (((((NewMemoryCache 2).Set 0 "k1" [1] 10).Set 0 "k2" [1] 20).Set 0
        "k3" [1, 1, 1, 1, 1] 30).Set 0 "k4" [1, 1, 1, 1, 1] 40).currentSize
      = 10 ∧
    ¬((((((NewMemoryCache 2).Set 0 "k1" [1] 10).Set 0 "k2" [1] 20).Set 0
        "k3" [1, 1, 1, 1, 1] 30).Set 0 "k4" [1, 1, 1, 1, 1] 40).currentSize
      ≤ 2 + ([1, 1, 1, 1, 1] : List Nat).length) := by
  refine ⟨by decide, by decide⟩

/-- C4 amended: when an insert would exceed the positive configured
capacity and the cache holds entries none of which is keyed by the empty
string, exactly one entry — one with the nearest expiry — is evicted
before inserting; consequently, for `Set` sequences on distinct
non-empty keys whose serialized values all have the same size `L`, the
total accounted size never exceeds capacity plus one pending insert.
(With a stored key `""` the Go sentinel can skip eviction or evict a
non-minimal entry, so the non-empty-key hypotheses are necessary.) -/
theorem memoryCache_eviction_bound_equal_sizes :
    (∀ (M : Int) (L : Nat) (ops : List CacheSetOp), 0 < M →
        (∀ op ∈ ops, op.value.length = L) →
        (∀ op ∈ ops, op.key ≠ "") →
        (ops.map CacheSetOp.key).Nodup →
        (applySets (NewMemoryCache M) ops).currentSize ≤ M + L) ∧
    (∀ (m : MemoryCache) (now : Nat) (key : String) (v : List Nat) (ttl : Nat),
        0 < m.maxSize → m.maxSize < m.currentSize + v.length →
        m.data ≠ [] → (∀ p ∈ m.data, p.1 ≠ "") →
        (m.data.map Prod.fst).Nodup →
        ∃ k it, k ≠ "" ∧ lookupA m.data k = some it ∧
          (∀ p ∈ m.data, it.expiredAt ≤ p.2.expiredAt) ∧
          (m.Set now key v ttl).data = setA (removeA m.data k) key ⟨v, now + ttl⟩ ∧
          (m.Set now key v ttl).currentSize =
            m.currentSize - it.value.length + v.length) := by
  constructor
  · intro M L ops hM hlen hkeys hnd
    have h0 : cacheInv L (NewMemoryCache M) := by
      refine ⟨hM, ?_, ?_, ?_, ?_⟩
      · intro p hp
        simp [NewMemoryCache] at hp
      · intro p hp
        simp [NewMemoryCache] at hp
      · simp [NewMemoryCache]
      · show (0 : Int) ≤ max M (L : Int)
        exact le_max_of_le_left (le_of_lt hM)
    obtain ⟨hinv, hmax⟩ := applySets_cacheInv L ops (NewMemoryCache M) h0
      hlen hkeys hnd (by intro op _ h; simp [NewMemoryCache] at h)
    have hbound := hinv.2.2.2.2
    have hms : (applySets (NewMemoryCache M) ops).maxSize = M := hmax
    rw [hms] at hbound
    refine le_trans hbound (max_le ?_ ?_)
    · exact le_add_of_nonneg_right (by positivity)
    · exact le_add_of_nonneg_left (le_of_lt hM)
  · intro m now key v ttl hM hover hdata hnoempty hnd
    obtain ⟨hsel, ⟨p0, hp0, hk1, hk2⟩, hmin⟩ := oldestScan_spec m.data hdata hnoempty
    have hit : lookupA m.data (oldestScan ("", 0) m.data).1 = some p0.2 := by
      rw [hk1]
      exact lookupA_eq_of_mem_nodup hnd hp0
    have hset := MemoryCache.Set_eq_of_over m now key v ttl ⟨hM, hover⟩
    have hev := m.evictLRU_of_sel hsel
    rw [hit] at hev
    refine ⟨(oldestScan ("", 0) m.data).1, p0.2, hsel, hit, ?_, ?_, ?_⟩
    · intro p hp
      rw [← hk2]
      exact hmin p hp
    · rw [hset, hev]
      rfl
    · rw [hset, hev]
      show m.currentSize - (((some p0.2).getD ⟨[], 0⟩).value.length : Int) +
          (v.length : Int) = m.currentSize - p0.2.value.length + v.length
      simp only [Option.getD_some]

/-- Witness for `memoryCache_eviction_bound_equal_sizes` at concrete
inputs: three unit-size inserts on non-empty distinct keys against
capacity 2, and one concrete over-capacity `Set`. -/
theorem memoryCache_eviction_bound_equal_sizes_witness :
    (applySets (NewMemoryCache 2)
      [⟨0, "a", [9], 10⟩, ⟨0, "b", [9], 20⟩, ⟨0, "c", [9], 30⟩]).currentSize
      ≤ 2 + (1 : Nat) ∧
    ∃ k it, k ≠ "" ∧
      lookupA (MemoryCache.mk [("a", ⟨[9], 10⟩), ("b", ⟨[9], 20⟩)] 2 2).data k =
        some it ∧
      (∀ p ∈ (MemoryCache.mk [("a", ⟨[9], 10⟩), ("b", ⟨[9], 20⟩)] 2 2).data,
        it.expiredAt ≤ p.2.expiredAt) ∧
      ((MemoryCache.mk [("a", ⟨[9], 10⟩), ("b", ⟨[9], 20⟩)] 2 2).Set 0 "c" [9] 30).data =
        setA (removeA (MemoryCache.mk [("a", ⟨[9], 10⟩), ("b", ⟨[9], 20⟩)] 2 2).data k)
          "c" ⟨[9], 0 + 30⟩ ∧
      ((MemoryCache.mk [("a", ⟨[9], 10⟩), ("b", ⟨[9], 20⟩)] 2 2).Set 0 "c" [9] 30).currentSize =
        (MemoryCache.mk [("a", ⟨[9], 10⟩), ("b", ⟨[9], 20⟩)] 2 2).currentSize -
          it.value.length + ([9] : List Nat).length :=
  ⟨memoryCache_eviction_bound_equal_sizes.1 2 1
      [⟨0, "a", [9], 10⟩, ⟨0, "b", [9], 20⟩, ⟨0, "c", [9], 30⟩]
      (by decide) (by decide) (by decide) (by decide),
   memoryCache_eviction_bound_equal_sizes.2
      (MemoryCache.mk [("a", ⟨[9], 10⟩), ("b", ⟨[9], 20⟩)] 2 2) 0 "c" [9] 30
      (by decide) (by decide) (by decide) (by decide) (by decide)⟩

end GlanceChina

namespace GlanceChina

/-! ## Worker pool (`WorkerPool`, src/unnamed/part_009) -/

/-- The error returned by `Submit` on a full queue (`ErrQueueFull`). -/
inductive PoolError where
  | queueFull
deriving Repr, DecidableEq

/-- The `WorkerPool` struct: jobs are identified by their ids; `jobQueue`
models the contents of the bounded `jobQueue` channel (capacity
`queueSize`) while no worker or dispatcher drains it. -/
structure WorkerPool where
  name : String
  maxWorkers : Nat
  queueSize : Nat
  jobQueue : List Nat
deriving Repr, DecidableEq

/-- `NewWorkerPool`: fresh pool with an empty bounded queue. -/
def NewWorkerPool (name : String) (maxWorkers queueSize : Nat) : WorkerPool :=
  { name := name, maxWorkers := maxWorkers, queueSize := queueSize, jobQueue := [] }

/-- `WorkerPool.Submit` while nothing drains the queue: the buffered
channel send succeeds exactly when the queue has free space; otherwise
the `select`'s `default` branch returns `ErrQueueFull` immediately. -/
def WorkerPool.Submit (wp : WorkerPool) (job : Nat) :
    Option PoolError × WorkerPool :=
  if wp.jobQueue.length < wp.queueSize then
    (none, { wp with jobQueue := wp.jobQueue ++ [job] })
  else (some .queueFull, wp)

/-- Submit a list of jobs in order, collecting each call's outcome. -/
def submitAll (wp : WorkerPool) : List Nat → List (Option PoolError) × WorkerPool
  | [] => ([], wp)
  | j :: rest =>
    let r := wp.Submit j
    let rr := submitAll r.2 rest
    (r.1 :: rr.1, rr.2)

theorem submitAll_spec (jobs : List Nat) :
    ∀ wp : WorkerPool,
      (submitAll wp jobs).1 =
        List.replicate (min (wp.queueSize - wp.jobQueue.length) jobs.length) none ++
        List.replicate (jobs.length - (wp.queueSize - wp.jobQueue.length))
          (some .queueFull) := by
  induction jobs with
  | nil => intro wp; simp [submitAll]
  | cons j rest ih =>
    intro wp
    by_cases h : wp.jobQueue.length < wp.queueSize
    · have hsub : wp.Submit j =
          (none, { wp with jobQueue := wp.jobQueue ++ [j] }) := by
        unfold WorkerPool.Submit
        rw [if_pos h]
      obtain ⟨f, hf⟩ : ∃ f, wp.queueSize - wp.jobQueue.length = f + 1 :=
        ⟨wp.queueSize - wp.jobQueue.length - 1, by omega⟩
      have hf' : wp.queueSize - (wp.jobQueue.length + 1) = f := by omega
      simp only [submitAll, hsub, ih]
      simp only [List.length_append, List.length_cons, List.length_nil]
      rw [hf, hf']
      rw [Nat.succ_min_succ, Nat.succ_sub_succ, List.replicate_succ, List.cons_append]
    · have hsub : wp.Submit j = (some .queueFull, wp) := by
        unfold WorkerPool.Submit
        rw [if_neg h]
      have hzero : wp.queueSize - wp.jobQueue.length = 0 := by omega
      simp only [submitAll, hsub, ih, hzero]
      simp [List.replicate_succ]

/-- C7: `Submit` enqueues and returns `nil` when the bounded queue has
free space, returns the queue-full error leaving the queue unchanged when
it is full, and, with no worker draining, submitting `n` jobs to a fresh
pool with queue size `q` accepts exactly the first `min q n` and rejects
every overflow submission with the queue-full error. -/
theorem workerPool_submit_backpressure :
    (∀ (wp : WorkerPool) (job : Nat),
        wp.jobQueue.length < wp.queueSize →
        wp.Submit job = (none, { wp with jobQueue := wp.jobQueue ++ [job] })) ∧
    (∀ (wp : WorkerPool) (job : Nat),
        ¬wp.jobQueue.length < wp.queueSize →
        wp.Submit job = (some .queueFull, wp)) ∧
    (∀ (name : String) (w q : Nat) (jobs : List Nat),
        (submitAll (NewWorkerPool name w q) jobs).1 =
          List.replicate (min q jobs.length) none ++
          List.replicate (jobs.length - q) (some .queueFull)) := by
  refine ⟨?_, ?_, ?_⟩
  · intro wp job h
    unfold WorkerPool.Submit
    rw [if_pos h]
  · intro wp job h
    unfold WorkerPool.Submit
    rw [if_neg h]
  · intro name w q jobs
    have := submitAll_spec jobs (NewWorkerPool name w q)
    simpa [NewWorkerPool] using this

/-- Witness for `workerPool_submit_backpressure`: a pool with queue size
2 accepts two submissions and rejects the third. -/
theorem workerPool_submit_backpressure_witness :
    ((NewWorkerPool "svc" 4 2).Submit 11 =
      (none, { NewWorkerPool "svc" 4 2 with jobQueue := [] ++ [11] })) ∧
    ((WorkerPool.mk "svc" 4 2 [11, 12]).Submit 13 =
      (some .queueFull, WorkerPool.mk "svc" 4 2 [11, 12])) ∧
    (submitAll (NewWorkerPool "svc" 4 2) [11, 12, 13]).1 =
      List.replicate (min 2 3) none ++
      List.replicate (3 - 2) (some .queueFull) :=
  ⟨workerPool_submit_backpressure.1 (NewWorkerPool "svc" 4 2) 11 (by decide),
   workerPool_submit_backpressure.2.1 (WorkerPool.mk "svc" 4 2 [11, 12]) 13 (by decide),
   workerPool_submit_backpressure.2.2 "svc" 4 2 [11, 12, 13]⟩

end GlanceChina

namespace GlanceChina

/-! ## Metrics monitor (`Monitor`, src/unnamed/part_009) -/

/-- The mutable fields of the `Metrics` struct that the record operations
touch.  Counters and durations are natural numbers (nanoseconds); maps
are association lists whose missing keys read as the Go zero value. -/
structure Metrics where
  httpRequests : Nat
  httpErrors : Nat
  httpResponseTime : Nat
  apiRequests : List (String × Nat)
  apiErrors : List (String × Nat)
  apiResponseTimes : List (String × Nat)
  widgetLoadTimes : List (String × Nat)
  widgetErrors : List (String × Nat)
deriving Repr, DecidableEq

/-- A Go map read returning the zero value for a missing key. -/
def mapGet (l : List (String × Nat)) (k : String) : Nat :=
  (lookupA l k).getD 0

/-- `NewMonitor`'s metrics: everything zero/empty. -/
def NewMonitorMetrics : Metrics :=
  { httpRequests := 0, httpErrors := 0, httpResponseTime := 0,
    apiRequests := [], apiErrors := [], apiResponseTimes := [],
    widgetLoadTimes := [], widgetErrors := [] }

/-- `Monitor.RecordHTTPRequest`: bump the counters, then set the average
to the sample on the first request and to `(old + sample) / 2` after. -/
def RecordHTTPRequest (m : Metrics) (duration : Nat) (isError : Bool) : Metrics :=
  let m := { m with httpRequests := m.httpRequests + 1 }
  let m := if isError then { m with httpErrors := m.httpErrors + 1 } else m
  if m.httpRequests = 1 then { m with httpResponseTime := duration }
  else { m with httpResponseTime := (m.httpResponseTime + duration) / 2 }

/-- `Monitor.RecordAPIRequest`: zero-initialise the service's entries on
first sight, bump the counters, then set the average to the sample on the
first request and to `(old + sample) / 2` after. -/
def RecordAPIRequest (m : Metrics) (service : String) (duration : Nat)
    (isError : Bool) : Metrics :=
  let m := if mapGet m.apiRequests service = 0 then
      { m with apiRequests := setA m.apiRequests service 0,
               apiErrors := setA m.apiErrors service 0,
               apiResponseTimes := setA m.apiResponseTimes service 0 }
    else m
  let m := { m with
    apiRequests := setA m.apiRequests service (mapGet m.apiRequests service + 1) }
  let m := if isError then
      { m with apiErrors := setA m.apiErrors service (mapGet m.apiErrors service + 1) }
    else m
  if mapGet m.apiRequests service = 1 then
    { m with apiResponseTimes := setA m.apiResponseTimes service duration }
  else
    { m with apiResponseTimes := setA m.apiResponseTimes service ((mapGet m.apiResponseTimes service + duration) / 2) }

/-- `Monitor.RecordWidgetLoad`: zero-initialise on first sight; on error
only bump the error counter; on success derive the sample count from
`APIRequests[widgetType] - WidgetErrors[widgetType]` and update the
average only when that count is 1 (set) or greater than 1 (halve). -/
def RecordWidgetLoad (m : Metrics) (widgetType : String) (duration : Nat)
    (isError : Bool) : Metrics :=
  let m := if mapGet m.widgetLoadTimes widgetType = 0 then
      { m with widgetLoadTimes := setA m.widgetLoadTimes widgetType 0,
               widgetErrors := setA m.widgetErrors widgetType 0 }
    else m
  if isError then
    { m with widgetErrors := setA m.widgetErrors widgetType (mapGet m.widgetErrors widgetType + 1) }
  else
    let count := mapGet m.apiRequests widgetType - mapGet m.widgetErrors widgetType
    if count = 1 then
      { m with widgetLoadTimes := setA m.widgetLoadTimes widgetType duration }
    else if 1 < count then
      { m with widgetLoadTimes := setA m.widgetLoadTimes widgetType ((mapGet m.widgetLoadTimes widgetType + duration) / 2) }
    else m

/-- `RecordAPIRequest` does follow the claimed running-average update:
the first sample for a service sets the average to the sample, and later
samples set it to `(old + sample) / 2`. -/
theorem recordAPIRequest_average (m : Metrics) (service : String)
    (duration : Nat) (isError : Bool) :
    mapGet (RecordAPIRequest m service duration isError).apiResponseTimes service =
      (if mapGet m.apiRequests service = 0 then duration
       else (mapGet m.apiResponseTimes service + duration) / 2) := by
  unfold RecordAPIRequest
  by_cases h0 : mapGet m.apiRequests service = 0
  · simp only [h0, if_true]
    have hreq : mapGet (setA m.apiRequests service 0) service = 0 := by
      simp [mapGet, lookupA_setA_self]
    have hbump : mapGet (setA (setA m.apiRequests service 0) service (0 + 1)) service = 1 := by
      simp [mapGet, lookupA_setA_self]
    cases isError <;>
      simp [hreq, hbump, mapGet, lookupA_setA_self]
  · simp only [h0, if_false]
    have hbump : mapGet (setA m.apiRequests service
        (mapGet m.apiRequests service + 1)) service =
        mapGet m.apiRequests service + 1 := by
      simp [mapGet, lookupA_setA_self]
    have hne : ¬ mapGet m.apiRequests service + 1 = 1 := by omega
    have h0' : ¬ (lookupA m.apiRequests service).getD 0 = 0 := by
      simpa [mapGet] using h0
    cases isError <;> simp [hbump, hne, h0', mapGet, lookupA_setA_self]

/-- C8 failing input: on a fresh monitor, the first successful widget
load sample is not recorded — the average stays 0 instead of becoming the
sample — because the sample count is derived from the per-service
`APIRequests` counter rather than a widget-load counter. -/
theorem recordWidgetLoad_first_sample_lost :
    mapGet ((RecordWidgetLoad NewMonitorMetrics "w" 100 false).widgetLoadTimes)
      "w" = 0 ∧ (100 : Nat) ≠ 0 := by
  exact ⟨by decide, by decide⟩

end GlanceChina

namespace GlanceChina

/-! ## Service manager (`ServiceManager.RequestWithFallback`,
src/internal/service/manager.go)

A client's `Request` performs real HTTP, so each call may give a
different outcome: a client is modelled as the stream of outcomes of its
successive calls, and per-client call counters are threaded through one
invocation.  The limiter verdict, the pool's free space, and which arm of
the `select` fires are likewise per-invocation oracles. -/

/-- The `APIResponse` struct (headers omitted: `RequestWithFallback`
never inspects them). -/
structure APIResponse where
  statusCode : Nat
  body : List Nat
  duration : Nat
deriving Repr, DecidableEq

/-- A registered client: `requests k` is the outcome of its `(k+1)`-th
`Request` call during the invocation under study. -/
structure APIClient where
  requests : Nat → Except String APIResponse

/-- The error taxonomy of `RequestWithFallback`. -/
inductive GoError where
  | serviceNotFound (service : String)
  | rateLimited (service : String)
  | queueFull
  | ctxCancelled
  | allServicesFailed (service : String)
deriving Repr, DecidableEq

/-- One `RecordAPIRequest` call made by the deferred function. -/
structure APIRecord where
  service : String
  duration : Nat
  isError : Bool
deriving Repr, DecidableEq

/-- The manager state plus the per-invocation oracles: the limiter's
verdict per service, whether `pool.Submit` accepts the job, and the
per-service fallback chains from `config.APISources`. -/
structure ServiceManager where
  clients : List (String × APIClient)
  allow : String → Bool
  queueHasSpace : Bool
  apiSources : List (String × List String)

/-- What one `RequestWithFallback` invocation returns and records:
the `(*APIResponse, error)` pair and the `RecordAPIRequest` calls made. -/
structure CallResult where
  resp : Option APIResponse
  err : Option GoError
  records : List APIRecord
deriving Repr, DecidableEq

/-- `ServiceManager.GetClient`. -/
def ServiceManager.GetClient (sm : ServiceManager) (name : String) :
    Option APIClient :=
  lookupA sm.clients name

/-- The job closure built in `RequestWithFallback`: it returns nil when
the request succeeded with a status below 400, and otherwise returns
`reqErr` — which is also nil whenever the request itself succeeded, so
the status check cannot produce a non-nil job error. -/
def jobFunction (r : Except String APIResponse) : Option String :=
  match r with
  | .ok resp => if resp.statusCode < 400 then none else none
  | .error e => some e

/-- Advance one client's call counter. -/
def bump (cnt : String → Nat) (name : String) : String → Nat :=
  fun s => if s = name then cnt s + 1 else cnt s

/-- The fallback chain configured for a service (`config.APISources`
lookup; a missing service yields no fallbacks, as the Go `exists` check
skips the loop). -/
def fallbacksOf (sm : ServiceManager) (service : String) : List String :=
  match lookupA sm.apiSources service with
  | some fb => fb
  | none => []

/-- The fallback loop of `RequestWithFallback`: resolve each fallback
name in declared order, call its client's `Request` directly, and return
the first success; rate limiting and the worker pool are not consulted. -/
def tryFallbacks (sm : ServiceManager) (cnt : String → Nat) :
    List String → Option APIResponse × (String → Nat)
  | [] => (none, cnt)
  | f :: rest =>
    match sm.GetClient f with
    | none => tryFallbacks sm cnt rest
    | some fc =>
      match fc.requests (cnt f) with
      | .ok resp => (some resp, bump cnt f)
      | .error _ => tryFallbacks sm (bump cnt f) rest

/-- `ServiceManager.RequestWithFallback`.  `ctxDoneFirst` tells which arm
of the `select` fires (the caller's context versus the job result);
`elapsed` is the wall-clock duration the deferred metric records.  The
recorded error flag is the deferred closure's `err != nil`, where `err`
is the function-scoped variable: it is never assigned by the shadowed
`pool.Submit` error, and it keeps the primary failure while the fallback
loop runs. -/
def ServiceManager.RequestWithFallback (sm : ServiceManager)
    (service : String) (ctxDoneFirst : Bool) (elapsed : Nat) : CallResult :=
  match sm.GetClient service with
  | none => ⟨none, some (.serviceNotFound service), [⟨service, elapsed, true⟩]⟩
  | some client =>
    if ¬ sm.allow service then
      ⟨none, some (.rateLimited service), [⟨service, elapsed, true⟩]⟩
    else if ¬ sm.queueHasSpace then
      ⟨none, some .queueFull, [⟨service, elapsed, false⟩]⟩
    else if ctxDoneFirst then
      ⟨none, some .ctxCancelled, [⟨service, elapsed, true⟩]⟩
    else
      match jobFunction (client.requests 0) with
      | none =>
        ⟨(client.requests 1).toOption, none, [⟨service, elapsed, false⟩]⟩
      | some _ =>
        match (tryFallbacks sm (bump (fun _ => 0) service)
            (fallbacksOf sm service)).1 with
        | some resp => ⟨some resp, none, [⟨service, elapsed, true⟩]⟩
        | none =>
          ⟨none, some (.allServicesFailed service), [⟨service, elapsed, true⟩]⟩

end GlanceChina

namespace GlanceChina

/-- Modelled from the amended claim: the error flag the deferred metric
records, which reflects only the primary path — true when the client is
missing, the rate check denies, the context wins the select, or the job
fails; false when the job reports success; and false on a queue-full
rejection, because `pool.Submit`'s error is shadowed and never reaches
the recorded `err`. -/
def primaryPathErrorFlag (sm : ServiceManager) (service : String)
    (ctxDoneFirst : Bool) : Bool :=
  match sm.GetClient service with
  | none => true
  | some client =>
    if ¬ sm.allow service then true
    else if ¬ sm.queueHasSpace then false
    else if ctxDoneFirst then true
    else
      match jobFunction (client.requests 0) with
      | none => false
      | some _ => true

/-- C1 counterexample: with primary service "A" failing and fallback "B"
succeeding, the call returns B's response with a nil error — the
invocation ultimately succeeded — yet the single recorded metric carries
`isError = true`, so the flag does not reflect the invocation's outcome. -/
theorem requestWithFallback_metric_misflags_fallback_success :
    (ServiceManager.RequestWithFallback
        ⟨[("A", ⟨fun _ => .error "boom"⟩), ("B", ⟨fun _ => .ok ⟨200, [1], 5⟩⟩)],
         fun _ => true, true, [("A", ["B"])]⟩ "A" false 7).err = none ∧
    (ServiceManager.RequestWithFallback
        ⟨[("A", ⟨fun _ => .error "boom"⟩), ("B", ⟨fun _ => .ok ⟨200, [1], 5⟩⟩)],
         fun _ => true, true, [("A", ["B"])]⟩ "A" false 7).resp =
      some ⟨200, [1], 5⟩ ∧
    (ServiceManager.RequestWithFallback
        ⟨[("A", ⟨fun _ => .error "boom"⟩), ("B", ⟨fun _ => .ok ⟨200, [1], 5⟩⟩)],
         fun _ => true, true, [("A", ["B"])]⟩ "A" false 7).records =
      [⟨"A", 7, true⟩] := by
  refine ⟨rfl, rfl, rfl⟩

/-- C1 amended: every invocation of `RequestWithFallback` records exactly
one API-request metric for the requested service with the measured
duration, but its error flag reflects the primary path only: it is true
whenever the primary path failed (even when a fallback ultimately
succeeded) and false on a queue-full rejection (whose error is shadowed). -/
theorem requestWithFallback_records_one_metric (sm : ServiceManager)
    (service : String) (ctxDoneFirst : Bool) (elapsed : Nat) :
    (sm.RequestWithFallback service ctxDoneFirst elapsed).records =
      [⟨service, elapsed, primaryPathErrorFlag sm service ctxDoneFirst⟩] := by
  unfold ServiceManager.RequestWithFallback primaryPathErrorFlag
  cases sm.GetClient service with
  | none => rfl
  | some client =>
    by_cases hA : sm.allow service
    · by_cases hQ : sm.queueHasSpace
      · cases ctxDoneFirst with
        | true => simp [hA, hQ]
        | false =>
          simp only [hA, hQ, not_true, if_false, if_true, Bool.false_eq_true,
            ite_false, ite_true]
          cases hj : jobFunction (client.requests 0) with
          | none => simp [hj]
          | some e =>
            simp only [hj]
            cases (tryFallbacks sm (bump (fun _ => 0) service)
                (fallbacksOf sm service)).1 <;> simp
      · simp [hA, hQ]
    · simp [hA]

end GlanceChina

namespace GlanceChina

/-- A fallback name that never yields a success during the invocation:
either unregistered, or every `Request` call on its client errors. -/
def fallbackNeverSucceeds (sm : ServiceManager) (g : String) : Prop :=
  ∀ fc, sm.GetClient g = some fc → ∀ k, ∃ e, fc.requests k = .error e

theorem jobFunction_ok (resp : APIResponse) : jobFunction (.ok resp) = none := by
  unfold jobFunction
  exact ite_self none

theorem tryFallbacks_first_success (sm : ServiceManager) (f : String)
    (fc : APIClient) (r : APIResponse) (post : List String)
    (hf : sm.GetClient f = some fc) (hfr : ∀ k, fc.requests k = .ok r) :
    ∀ (pre : List String) (cnt : String → Nat),
      (∀ g ∈ pre, fallbackNeverSucceeds sm g) →
      (tryFallbacks sm cnt (pre ++ f :: post)).1 = some r := by
  intro pre
  induction pre with
  | nil =>
    intro cnt _
    show (tryFallbacks sm cnt (f :: post)).1 = some r
    simp only [tryFallbacks, hf, hfr (cnt f)]
  | cons g pre' ih =>
    intro cnt hpre
    show (tryFallbacks sm cnt (g :: (pre' ++ f :: post))).1 = some r
    cases hg : sm.GetClient g with
    | none =>
      simp only [tryFallbacks, hg]
      exact ih cnt (fun x hx => hpre x (List.mem_cons_of_mem _ hx))
    | some gc =>
      obtain ⟨e, he⟩ := hpre g (List.mem_cons_self _ _) gc hg (cnt g)
      simp only [tryFallbacks, hg, he]
      exact ih (bump cnt g) (fun x hx => hpre x (List.mem_cons_of_mem _ hx))

theorem GetClient_clients_eq (sm sm' : ServiceManager)
    (hc : sm'.clients = sm.clients) (name : String) :
    sm'.GetClient name = sm.GetClient name := by
  unfold ServiceManager.GetClient
  rw [hc]

theorem tryFallbacks_clients_eq (sm sm' : ServiceManager)
    (hc : sm'.clients = sm.clients) :
    ∀ (l : List String) (cnt : String → Nat),
      tryFallbacks sm' cnt l = tryFallbacks sm cnt l := by
  intro l
  induction l with
  | nil => intro cnt; rfl
  | cons f rest ih =>
    intro cnt
    cases hgf : sm.GetClient f with
    | none =>
      simp only [tryFallbacks, GetClient_clients_eq sm sm' hc, hgf]
      exact ih cnt
    | some fc =>
      cases hreq : fc.requests (cnt f) with
      | ok resp =>
        simp only [tryFallbacks, GetClient_clients_eq sm sm' hc, hgf, hreq]
      | error e1 =>
        simp only [tryFallbacks, GetClient_clients_eq sm sm' hc, hgf, hreq]
        exact ih (bump cnt f)

theorem fallbacksOf_apiSources_eq (sm sm' : ServiceManager)
    (ha : sm'.apiSources = sm.apiSources) (service : String) :
    fallbacksOf sm' service = fallbacksOf sm service := by
  unfold fallbacksOf
  rw [ha]

theorem requestWithFallback_allow_invariant (sm : ServiceManager)
    (allow' : String → Bool) (service : String) (ctxDoneFirst : Bool)
    (elapsed : Nat) (h : allow' service = sm.allow service) :
    ServiceManager.RequestWithFallback { sm with allow := allow' }
        service ctxDoneFirst elapsed =
      sm.RequestWithFallback service ctxDoneFirst elapsed := by
  unfold ServiceManager.RequestWithFallback
  rw [GetClient_clients_eq sm { sm with allow := allow' } rfl service]
  cases sm.GetClient service with
  | none => rfl
  | some client =>
    simp only [fallbacksOf_apiSources_eq sm { sm with allow := allow' } rfl,
      tryFallbacks_clients_eq sm { sm with allow := allow' } rfl]
    rw [h]

end GlanceChina

namespace GlanceChina

/-- C2: when the primary path fails with a job error and the service's
fallback chain lists, in declared order, names that never succeed
followed by one whose client always succeeds with response `r`, the call
returns `r` with a nil error; the fallback loop consults only `GetClient`
and each fallback client's `Request` directly — changing the limiter's
verdict on any other service (in particular on every fallback) leaves the
outcome unchanged, and no worker-pool submission guards the fallback path. -/
theorem requestWithFallback_fallback_order (sm : ServiceManager)
    (service : String) (elapsed : Nat) (client : APIClient) (e : String)
    (pre post : List String) (f : String) (fc : APIClient) (r : APIResponse)
    (hC : sm.GetClient service = some client)
    (hA : sm.allow service = true)
    (hQ : sm.queueHasSpace = true)
    (hprim : client.requests 0 = .error e)
    (hfbs : fallbacksOf sm service = pre ++ f :: post)
    (hpre : ∀ g ∈ pre, fallbackNeverSucceeds sm g)
    (hf : sm.GetClient f = some fc)
    (hfr : ∀ k, fc.requests k = .ok r) :
    (sm.RequestWithFallback service false elapsed).resp = some r ∧
    (sm.RequestWithFallback service false elapsed).err = none ∧
    (∀ allow' : String → Bool, allow' service = sm.allow service →
        ServiceManager.RequestWithFallback { sm with allow := allow' }
            service false elapsed =
          sm.RequestWithFallback service false elapsed) := by
  have hjob : jobFunction (client.requests 0) = some e := by
    rw [hprim]
    rfl
  have htry := tryFallbacks_first_success sm f fc r post hf hfr pre
    (bump (fun _ => 0) service) hpre
  rw [← hfbs] at htry
  have hmain : sm.RequestWithFallback service false elapsed =
      ⟨some r, none, [⟨service, elapsed, true⟩]⟩ := by
    unfold ServiceManager.RequestWithFallback
    rw [hC]
    simp only [hA, hQ, not_true, if_false, Bool.false_eq_true, ite_false,
      ite_true, hjob]
    obtain ⟨resp1, hresp1⟩ : ∃ resp1,
        (tryFallbacks sm (bump (fun _ => 0) service)
          (fallbacksOf sm service)).1 = some resp1 ∧ resp1 = r := ⟨r, htry, rfl⟩
    rw [hresp1.1, hresp1.2]
  refine ⟨by rw [hmain], by rw [hmain], ?_⟩
  intro allow' h
  exact requestWithFallback_allow_invariant sm allow' service false elapsed h

/-- Witness for `requestWithFallback_fallback_order`: chain `[B, C]`, the
primary `A` and fallback `B` fail, `C` succeeds, and the call returns C's
response with a nil error. -/
theorem requestWithFallback_fallback_order_witness :
    (ServiceManager.RequestWithFallback
        ⟨[("A", ⟨fun _ => .error "a-down"⟩), ("B", ⟨fun _ => .error "b-down"⟩),
          ("C", ⟨fun _ => .ok ⟨200, [3], 9⟩⟩)],
         fun _ => true, true, [("A", ["B", "C"])]⟩ "A" false 3).resp =
      some ⟨200, [3], 9⟩ ∧
    (ServiceManager.RequestWithFallback
        ⟨[("A", ⟨fun _ => .error "a-down"⟩), ("B", ⟨fun _ => .error "b-down"⟩),
          ("C", ⟨fun _ => .ok ⟨200, [3], 9⟩⟩)],
         fun _ => true, true, [("A", ["B", "C"])]⟩ "A" false 3).err = none := by
  have hpre : ∀ g ∈ ["B"], fallbackNeverSucceeds
      (⟨[("A", ⟨fun _ => .error "a-down"⟩), ("B", ⟨fun _ => .error "b-down"⟩),
         ("C", ⟨fun _ => .ok ⟨200, [3], 9⟩⟩)],
        fun _ => true, true, [("A", ["B", "C"])]⟩ : ServiceManager) g := by
    intro g hg fc hfc k
    have hgB : g = "B" := by
      cases hg with
      | head => rfl
      | tail _ h' => cases h'
    subst hgB
    have hfc' : some (⟨fun _ => .error "b-down"⟩ : APIClient) = some fc := hfc
    have : fc = ⟨fun _ => .error "b-down"⟩ := (Option.some.inj hfc').symm
    rw [this]
    exact ⟨"b-down", rfl⟩
  have h := requestWithFallback_fallback_order
    ⟨[("A", ⟨fun _ => .error "a-down"⟩), ("B", ⟨fun _ => .error "b-down"⟩),
      ("C", ⟨fun _ => .ok ⟨200, [3], 9⟩⟩)],
     fun _ => true, true, [("A", ["B", "C"])]⟩
    "A" 3 ⟨fun _ => .error "a-down"⟩ "a-down" ["B"] [] "C"
    ⟨fun _ => .ok ⟨200, [3], 9⟩⟩ ⟨200, [3], 9⟩
    rfl rfl rfl rfl rfl hpre rfl (fun _ => rfl)
  exact ⟨h.1, h.2.1⟩

/-- C9: when the worker-pool job reports success (nil on the result
channel) but the synchronously re-issued `client.Request` fails, the call
returns a nil response together with a nil error, so the caller receives
neither a response nor an error. -/
theorem requestWithFallback_nil_response_nil_error (sm : ServiceManager)
    (service : String) (elapsed : Nat) (client : APIClient)
    (r0 : APIResponse) (e : String)
    (hC : sm.GetClient service = some client)
    (hA : sm.allow service = true)
    (hQ : sm.queueHasSpace = true)
    (h0 : client.requests 0 = .ok r0)
    (h1 : client.requests 1 = .error e) :
    (sm.RequestWithFallback service false elapsed).resp = none ∧
    (sm.RequestWithFallback service false elapsed).err = none := by
  have hjob : jobFunction (client.requests 0) = none := by
    rw [h0]
    exact jobFunction_ok r0
  have hmain : sm.RequestWithFallback service false elapsed =
      ⟨(client.requests 1).toOption, none, [⟨service, elapsed, false⟩]⟩ := by
    unfold ServiceManager.RequestWithFallback
    rw [hC]
    simp only [hA, hQ, not_true, if_false, Bool.false_eq_true, ite_false,
      ite_true, hjob]
  rw [hmain, h1]
  exact ⟨rfl, rfl⟩

/-- Witness for `requestWithFallback_nil_response_nil_error`: a client
whose first call succeeds and whose second call fails yields a nil
response and a nil error. -/
theorem requestWithFallback_nil_response_nil_error_witness :
    (ServiceManager.RequestWithFallback
        ⟨[("A", ⟨fun k => if k = 0 then .ok ⟨200, [], 1⟩ else .error "late"⟩)],
         fun _ => true, true, []⟩ "A" false 2).resp = none ∧
    (ServiceManager.RequestWithFallback
        ⟨[("A", ⟨fun k => if k = 0 then .ok ⟨200, [], 1⟩ else .error "late"⟩)],
         fun _ => true, true, []⟩ "A" false 2).err = none :=
  requestWithFallback_nil_response_nil_error
    ⟨[("A", ⟨fun k => if k = 0 then .ok ⟨200, [], 1⟩ else .error "late"⟩)],
     fun _ => true, true, []⟩
    "A" 2 ⟨fun k => if k = 0 then .ok ⟨200, [], 1⟩ else .error "late"⟩
    ⟨200, [], 1⟩ "late" rfl rfl rfl rfl rfl

end GlanceChina
